import Mathlib

/-!
Verification of the Delta Force configuration assistant (`app.py`, `jiance.py`,
`main.py`, `chazhao.py`) against its natural-language specification.

The development shallowly embeds the parts of the source the claims are about:

* `configMonitorRun` — the edge-detecting poll loop of `ConfigMonitor.run`
  (`app.py`, lines 95-114).  The loop body probes the process table
  (`is_game_running`), compares with `last_running`, and emits the
  started / stopped callbacks on rising / falling edges; any exception
  raised inside the loop is surfaced once through `on_error` and then
  re-raised, terminating the thread.  A poll tick is modelled by one
  element of the input list; a probe outcome is `Except.ok b` for a
  normal result and `Except.error e` for an unexpected exception.  The
  `_stop_event` based termination is modelled by the input list being
  finite (the claims about the loop quantify over probe-result
  sequences, not over stop requests, which live in the app model below).

* `FileData` / `restoreBackupToGame` — the restore action
  `DeltaForceConfigApp._restore_backup_to_game` (`app.py`, lines 604-626)
  together with the helpers `_ensure_writable` (698-705) and
  `_ensure_read_only` (708-715).  File-system syscall outcomes (chmod,
  copy) that the Python code cannot influence are supplied by an `IOEnv`
  oracle; a failing copy is modelled as leaving the target unchanged.

* `AppState` / `appStep` — the Tk application's scheduler state:
  `monitor_thread`, `pending_restore_job`, `game_currently_running`, the
  set of live `root.after` timers, and the handlers `_on_game_started`,
  `_on_game_stopped`, `_stop_monitoring` (`app.py`, lines 510-626).
  Callbacks are marshalled onto the Tk thread with `root.after(0, ...)`
  and processed one at a time in order (spec §5); the model therefore
  processes one event per step, and monitor callbacks are only delivered
  while the monitor thread is live.

* `applyAntiAliasingSetting` / `removeAntiAliasingSetting` — the INI
  patching functions of `main.py` (lines 12-83, 86-127, 130-157),
  embedded as pure functions on the file content, with read/write
  syscall success supplied by oracle booleans and a failed write
  modelled as leaving the file unchanged.
-/

/-! ## Presence monitor (`ConfigMonitor.run`, app.py lines 95-114) -/

/-- A callback emitted by the monitor thread: `on_game_started`,
`on_game_stopped`, or `on_error` with the message built at app.py line 113. -/
inductive MEvent where
  | started
  | stopped
  | error (msg : String)
deriving DecidableEq, Repr

/-- `true` exactly for the `on_error` event. -/
def MEvent.isError : MEvent → Bool
  | MEvent.error _ => true
  | _ => false

/-- One probe outcome per poll tick: `Except.ok b` is a normal
`is_game_running()` result, `Except.error e` an unexpected exception
escaping the probe (the per-process `NoSuchProcess` / `AccessDenied`
cases are already skipped inside `_is_process_running` and never reach
the loop). -/
abbrev ProbeResult := Except String Bool

/-- `ConfigMonitor.run` (app.py lines 95-114).  `last` is `last_running`
(initially `False`).  On a normal tick the rising / falling edge
callbacks fire and `last_running` is updated; on an exception the
`except` clause at line 112 calls `on_error` once and re-raises, ending
the thread, so nothing after the failing tick is processed. -/
def configMonitorRun (last : Bool) : List ProbeResult → List MEvent
  | [] => []
  | Except.error e :: _ => [MEvent.error ("监控线程发生异常: " ++ e)]
  | Except.ok running :: rest =>
      (if running && !last then [MEvent.started]
       else if !running && last then [MEvent.stopped]
       else []) ++ configMonitorRun running rest

/-- Specification-side description of one tick: the event the monitor is
supposed to emit given the previous and current probe value
(`some started` on a rising edge, `some stopped` on a falling edge,
`none` otherwise). -/
def tickEvent (prev cur : Bool) : Option MEvent :=
  if cur && !prev then some MEvent.started
  else if !cur && prev then some MEvent.stopped
  else none

/-- Number of `false -> true` transitions of a probe sequence, starting
from previous value `prev`. -/
def risingEdges (prev : Bool) : List Bool → Nat
  | [] => 0
  | c :: rest => (if c && !prev then 1 else 0) + risingEdges c rest

/-- Number of `true -> false` transitions of a probe sequence, starting
from previous value `prev`. -/
def fallingEdges (prev : Bool) : List Bool → Nat
  | [] => 0
  | c :: rest => (if !c && prev then 1 else 0) + fallingEdges c rest

/-! ## Backup / restore file operations (app.py lines 604-626, 698-715) -/

/-- The observable state of one file: whether it exists, its byte
content, and whether the read-only attribute is set. -/
structure FileData where
  present : Bool
  content : List Nat
  readOnly : Bool
deriving DecidableEq, Repr

/-- Success / failure of the three file-system calls issued by one run of
`_restore_backup_to_game`: the `chmod` inside `_ensure_writable`, the
`shutil.copy2`, and the `chmod` inside `_ensure_read_only`.  These are
environment outcomes the Python code cannot influence. -/
structure IOEnv where
  clearOk : Bool
  copyOk : Bool
  setOk : Bool
deriving DecidableEq, Repr

/-- `_ensure_writable` (app.py lines 698-705): if the file exists, chmod
it writable; every exception is swallowed (`except Exception: pass`), so
on failure the file is simply left as it was and nothing propagates. -/
def ensureWritable (ok : Bool) (f : FileData) : FileData :=
  if f.present && ok then { f with readOnly := false } else f

/-- `_ensure_read_only` (app.py lines 708-715): if the file exists, chmod
it read-only; every exception is swallowed, so on failure the file is
left as it was and nothing propagates to the caller. -/
def ensureReadOnly (ok : Bool) (f : FileData) : FileData :=
  if f.present && ok then { f with readOnly := true } else f

/-- `shutil.copy2 src dst`: fails (raises) when the source is missing,
when the destination is read-only, or when the environment makes the
copy fail; on success the destination holds the source's content and,
because `copy2` also runs `copystat`, the source's permission bits.  A
failing copy is modelled as leaving the destination unchanged. -/
def copy2 (ok : Bool) (src dst : FileData) : Option FileData :=
  if src.present && ok && !(dst.present && dst.readOnly) then
    some { present := true, content := src.content, readOnly := src.readOnly }
  else none

/-- The outcome logged / reported by one run of
`_restore_backup_to_game`, one constructor per `return` path of the
Python function (app.py lines 604-626).  `failed` is the `except` clause
at line 620, the only path that reports a failure to the caller
(log line `恢复失败` plus a blocking error dialog); `success` is the
final path that logs and notifies success. -/
inductive RestoreOutcome where
  | skippedNotRunning
  | missingConfig
  | missingBackup
  | failed
  | success
deriving DecidableEq, Repr

/-- `_restore_backup_to_game` (app.py lines 604-626), minus the
`pending_restore_job = None` assignment which lives in the app model.
`running` is `self.game_currently_running` at fire time; `backup` is
`BACKUP_FILE`; `config` is the selected live config (the
`selected_config_path is None` and `.exists()` checks collapse into
`config.present`).  Returns the reported outcome and the final state of
the live config file. -/
def restoreBackupToGame (env : IOEnv) (running : Bool)
    (backup config : FileData) : RestoreOutcome × FileData :=
  if !running then (RestoreOutcome.skippedNotRunning, config)
  else if !config.present then (RestoreOutcome.missingConfig, config)
  else if !backup.present then (RestoreOutcome.missingBackup, config)
  else
    let c1 := ensureWritable env.clearOk config
    match copy2 env.copyOk backup c1 with
    | none => (RestoreOutcome.failed, c1)
    | some c2 => (RestoreOutcome.success, ensureReadOnly env.setOk c2)

/-! ## The application's scheduler state machine (app.py lines 510-626)

The Tk event loop serialises everything: monitor callbacks are posted
with `root.after(0, ...)` and run on the UI thread in order (spec §5),
button handlers run on the UI thread, and `root.after(delay_ms, ...)`
timers fire on the UI thread.  One `appStep` is the processing of one
such event.  `_stop_monitoring` joins the monitor thread, so started /
stopped callbacks are only delivered while `monitor_thread` is live. -/

/-- `_get_restore_delay_seconds` (app.py lines 630-642): the raw spinbox
value clamped to `[0, 120]` (the `TclError` / non-int fallbacks produce
the default 8, which is just another in-range raw value). -/
def getRestoreDelaySeconds (raw : Int) : Int :=
  max 0 (min 120 raw)

/-- The scheduler-relevant state of `DeltaForceConfigApp` plus the Tk
timer queue.  `scheduled` is the list of live (not yet fired, not
cancelled) `root.after` timers as `(id, delay_ms)` pairs; Tk hands out
fresh ids, modelled by the `nextId` counter.  `restoreDelay` is the raw
spinbox value (constant across events).  `backup` is `BACKUP_FILE` and
`config` the selected live config; `writes` counts successful copies of
the backup over the live config. -/
structure AppState where
  monitorActive : Bool
  pending : Option Nat
  scheduled : List (Nat × Int)
  nextId : Nat
  gameRunning : Bool
  restoreDelay : Int
  backup : FileData
  config : FileData
  writes : Nat
deriving DecidableEq, Repr

/-- The serialised events the UI thread processes: the start/stop
buttons, the marshalled monitor callbacks, the marshalled monitor-error
handler, and the firing of a Tk timer (carrying the file-system
outcomes of that particular restore attempt). -/
inductive Ev where
  | startMon
  | started
  | stopped
  | stopMon
  | monError
  | fire (j : Nat) (env : IOEnv)
deriving DecidableEq

/-- `root.after_cancel j`: the timer with id `j` is removed from the Tk
queue. -/
def afterCancel (j : Nat) (q : List (Nat × Int)) : List (Nat × Int) :=
  q.filter (fun p => p.1 != j)

/-- The `if self.pending_restore_job: self.root.after_cancel(...)`
pattern shared by `_on_game_started`, `_on_game_stopped` and
`_stop_monitoring`: the Tk queue after cancelling the pending timer, if
any. -/
def cancelPending (s : AppState) : List (Nat × Int) :=
  match s.pending with
  | some j => afterCancel j s.scheduled
  | none => s.scheduled

/-- `_on_game_started` (app.py lines 575-589): set
`game_currently_running`, cancel the pending timer if any, and schedule
a fresh restore timer after `max(0, delay) * 1000` ms, storing its id in
`pending_restore_job`. -/
def onGameStarted (s : AppState) : AppState :=
  let delayMs : Int := max 0 (getRestoreDelaySeconds s.restoreDelay) * 1000
  { s with
    gameRunning := true
    scheduled := cancelPending s ++ [(s.nextId, delayMs)]
    pending := some s.nextId
    nextId := s.nextId + 1 }

/-- `_on_game_stopped` (app.py lines 591-597): clear
`game_currently_running` and cancel the pending restore timer, if any. -/
def onGameStopped (s : AppState) : AppState :=
  { s with gameRunning := false, scheduled := cancelPending s, pending := none }

/-- `_stop_monitoring` (app.py lines 545-559): if no monitor thread
exists, return immediately; otherwise stop and join the thread, cancel
the pending restore timer if any, and clear `game_currently_running`. -/
def stopMonitoringStep (s : AppState) : AppState :=
  if !s.monitorActive then s
  else
    { s with monitorActive := false, gameRunning := false,
             scheduled := cancelPending s, pending := none }

/-- The outcome `_restore_backup_to_game` reports when a timer fires in
state `s` under file-system outcomes `env` (the fire-time re-check uses
the *current* `game_currently_running`, nothing captured at scheduling
time — the scheduled timer carries no snapshot at all). -/
def fireOutcome (s : AppState) (env : IOEnv) : RestoreOutcome :=
  (restoreBackupToGame env s.gameRunning s.backup s.config).1

/-- A Tk timer with id `j` fires: Tk removes it from the queue and runs
`_restore_backup_to_game` (app.py lines 604-626), which first clears
`pending_restore_job` and then performs the gated restore.  A cancelled
timer no longer sits in the queue, so firing it is a no-op. -/
def fireTimer (s : AppState) (j : Nat) (env : IOEnv) : AppState :=
  if s.scheduled.any (fun p => p.1 == j) then
    let r := restoreBackupToGame env s.gameRunning s.backup s.config
    { s with
      scheduled := afterCancel j s.scheduled
      pending := none
      config := r.2
      writes := s.writes + (if r.1 = RestoreOutcome.success then 1 else 0) }
  else s

/-- One serialised UI-thread event.  `_start_monitoring` (app.py lines
510-543) refuses to start when a monitor thread is already alive and
requires a selected config and an existing backup (the
`find_game_executable` failure path likewise starts nothing).  The
monitor callbacks only arrive while the monitor thread is live.
`_handle_monitor_error` (app.py lines 599-602) logs, shows the error
dialog and calls `_stop_monitoring`. -/
def appStep (s : AppState) : Ev → AppState
  | Ev.startMon =>
      if !s.monitorActive && s.config.present && s.backup.present then
        { s with monitorActive := true }
      else s
  | Ev.started => if s.monitorActive then onGameStarted s else s
  | Ev.stopped => if s.monitorActive then onGameStopped s else s
  | Ev.stopMon => stopMonitoringStep s
  | Ev.monError => stopMonitoringStep s
  | Ev.fire j env => fireTimer s j env

/-- Processing a list of events in order. -/
def appRun (s : AppState) : List Ev → AppState
  | [] => s
  | e :: evs => appRun (appStep s e) evs

/-- The application's state right after `__init__`: no monitor thread,
no pending restore job, game not seen running. -/
def initState (delay : Int) (backup config : FileData) : AppState :=
  { monitorActive := false
    pending := none
    scheduled := []
    nextId := 0
    gameRunning := false
    restoreDelay := delay
    backup := backup
    config := config
    writes := 0 }

/-- States the application can actually be in. -/
def Reachable (s : AppState) : Prop :=
  ∃ delay backup config evs, appRun (initState delay backup config) evs = s

/-- The structural invariant of the scheduler: the pending slot and the
Tk queue agree and hold at most one restore timer, all queued ids are
below the fresh-id counter, and a dead monitor leaves no pending job. -/
structure AppInv (s : AppState) : Prop where
  slot : (s.pending = none ∧ s.scheduled = []) ∨
         ∃ j d, s.pending = some j ∧ s.scheduled = [(j, d)]
  fresh : ∀ p ∈ s.scheduled, p.1 < s.nextId
  inactive : s.monitorActive = false → s.pending = none

/-- A timer id that is off the queue and below the fresh-id counter: Tk
will never hand it out again, so it can never re-enter the queue. -/
def TimerDead (s : AppState) (j : Nat) : Prop :=
  j < s.nextId ∧ ∀ d, (j, d) ∉ s.scheduled

/-! ## INI patching (`main.py` lines 12-83, 86-127, 130-157)

`apply_anti_aliasing_setting` and `remove_anti_aliasing_setting` read
the file, transform the decoded text, and write it back.  The text
transformation is embedded as pure functions on the content `String`;
the file-level wrappers take the file's existence and the read / write
syscall outcomes as oracle booleans, with a failed write modelled as
leaving the file unchanged.  `str.splitlines` is modelled for the
newline conventions an INI file can contain (`\n`, `\r\n`, `\r`);
`str.strip` is modelled by `String.trim`. -/

/-- The exact line / substring the patch inserts and looks for. -/
def aaTarget : String := "sg.AntiAliasingQuality=0"

/-- Python's `sub in s` substring test. -/
def pyInStr (sub s : String) : Bool :=
  decide (sub.toList <:+: s.toList)

/-- Accumulating worker for `pySplitLines`: `acc` holds the current
line's characters in reverse. -/
def splitLinesGo : List Char → List Char → List String
  | [], acc => if acc.isEmpty then [] else [String.mk acc.reverse]
  | '\r' :: '\n' :: rest, acc => String.mk acc.reverse :: splitLinesGo rest []
  | '\n' :: rest, acc => String.mk acc.reverse :: splitLinesGo rest []
  | '\r' :: rest, acc => String.mk acc.reverse :: splitLinesGo rest []
  | c :: rest, acc => splitLinesGo rest (c :: acc)

/-- Python's `str.splitlines()` for `\n` / `\r\n` / `\r` newlines: no
entry for a trailing newline, `""` splits to `[]`. -/
def pySplitLines (s : String) : List String :=
  splitLinesGo s.toList []

/-- Python's `sep.join(parts)`. -/
def pyJoin (sep : String) : List String → String
  | [] => ""
  | [x] => x
  | x :: y :: rest => x ++ sep ++ pyJoin sep (y :: rest)

/-- Outcome of the `for idx, line in enumerate(lines)` loop of
`apply_anti_aliasing_setting` (main.py lines 37-53): the early `return`
at line 49 when the exact setting is found inside the section, the
`break` at line 53 after overwriting line `idx`, or normal loop exit
carrying `section_found` and `insertion_index`. -/
inductive ScanOut where
  | already
  | replaced (idx : Nat)
  | finished (sectionFound : Bool) (insertionIndex : Option Nat)
deriving DecidableEq, Repr

/-- The loop of main.py lines 37-53.  A header line records the end of a
previous `[ScalabilityGroups]` section in `insertion_index` and updates
`in_section` / `section_found`; inside the section, a line whose
lower-cased strip starts with `sg.antialiasingquality` either ends the
call (exact match) or is overwritten. -/
def scanLines : Nat → Bool → Bool → Option Nat → List String → ScanOut
  | _, _, sf, ii, [] => ScanOut.finished sf ii
  | idx, inSec, sf, ii, line :: rest =>
      if line.trim.startsWith "[" && line.trim.endsWith "]" then
        scanLines (idx + 1) (line.trim.toLower == "[scalabilitygroups]")
          (sf || (line.trim.toLower == "[scalabilitygroups]"))
          (if inSec && ii.isNone then some idx else ii) rest
      else if inSec && line.trim.toLower.startsWith "sg.antialiasingquality" then
        if line.trim == aaTarget then ScanOut.already else ScanOut.replaced idx
      else scanLines (idx + 1) inSec sf ii rest

/-- Result of the pure content transformation: the user-visible message,
whether the content was modified, and the resulting content. -/
structure PatchResult where
  message : String
  changed : Bool
  content : String
deriving DecidableEq, Repr

/-- main.py lines 74-76: join the lines with `\n` and ensure a trailing
newline. -/
def applyFinish (lines : List String) (msg : String) : PatchResult :=
  let c := pyJoin "\n" lines
  ⟨msg, true, if !c.endsWith "\n" then c ++ "\n" else c⟩

/-- The content transformation of `apply_anti_aliasing_setting`
(main.py lines 27-76): the substring short-circuit at line 27, the scan
loop, and the three update shapes (overwrite the existing key, insert
into the found section, or append a new section after a separating blank
line).  The `if not updated: return` at lines 71-72 is unreachable: when
no section was found the branch at lines 64-69 always updates. -/
def applyAntiAliasingContent (content : String) : PatchResult :=
  if pyInStr aaTarget content then
    ⟨"抗锯齿设置已存在，无需修改。", false, content⟩
  else
    let lines := pySplitLines content
    match scanLines 0 false false none lines with
    | ScanOut.already => ⟨"抗锯齿设置已存在，无需修改。", false, content⟩
    | ScanOut.replaced idx =>
        applyFinish (lines.set idx aaTarget) "已将现有抗锯齿设置更新为 0。"
    | ScanOut.finished true none =>
        applyFinish (lines ++ [aaTarget]) "已在 [ScalabilityGroups] 部分添加抗锯齿设置。"
    | ScanOut.finished true (some i) =>
        applyFinish (lines.insertIdx i aaTarget) "已在 [ScalabilityGroups] 部分添加抗锯齿设置。"
    | ScanOut.finished false _ =>
        let base := match lines.getLast? with
          | some l => if l.trim == "" then lines else lines ++ [""]
          | none => lines
        applyFinish (base ++ ["[ScalabilityGroups]", aaTarget])
          "已添加新的 [ScalabilityGroups] 部分并写入抗锯齿设置。"

/-- A header line in the sense of `_strip_anti_aliasing_setting`
(main.py line 101). -/
def isHeaderLine (l : String) : Bool :=
  l.trim.startsWith "[" && l.trim.endsWith "]"

/-- The `return "\n".join(trimmed_lines), removed` fallthrough of
`_strip_anti_aliasing_setting` (main.py lines 125-127): drop every line
equal to the setting, anywhere in the file. -/
def stripFallthrough (lines : List String) : String × Bool :=
  let trimmed := lines.filter (fun l => !(l.trim == aaTarget))
  (pyJoin "\n" trimmed, trimmed.length != lines.length)

/-- `_strip_anti_aliasing_setting` (main.py lines 86-127).  Locate the
first `[ScalabilityGroups]` header, bound its section at the next header
(or end of file), and drop the setting from the section; when the
remaining section is entirely blank, the Python code splices and then
runs `del lines[start_idx:end_idx]` and two blank-trimming loops on the
already-spliced list — the embedding reproduces those exact list
operations, including the use of the pre-splice `end_idx` on the spliced
list. -/
def stripAntiAliasingSetting (content : String) : String × Bool :=
  let lines := pySplitLines content
  match lines.findIdx? (fun l => l.trim.toLower == "[scalabilitygroups]") with
  | none => stripFallthrough lines
  | some start =>
      let rest := lines.drop (start + 1)
      let endOff := match rest.findIdx? isHeaderLine with
        | some k => k
        | none => rest.length
      let endIdx := start + 1 + endOff
      let sect := rest.take endOff
      let filtered := sect.filter (fun l => !(l.trim == aaTarget))
      if filtered.length != sect.length then
        let lines1 := lines.take (start + 1) ++ filtered ++ lines.drop endIdx
        if !(filtered.any (fun l => !(l.trim == ""))) then
          let lines2 := lines1.take start ++ lines1.drop endIdx
          let lines3 :=
            lines2.take start ++ (lines2.drop start).dropWhile (fun l => l.trim == "")
          let lines4 :=
            ((lines3.take start).reverse.dropWhile (fun l => l.trim == "")).reverse
              ++ lines3.drop start
          (pyJoin "\n" lines4, true)
        else (pyJoin "\n" lines1, true)
      else stripFallthrough lines

/-- Result of a file-level patch call: message, the boolean the function
returns, the file content afterwards, and whether a write reached the
disk. -/
structure FilePatchResult where
  message : String
  changed : Bool
  content : String
  wrote : Bool
deriving DecidableEq, Repr

/-- `apply_anti_aliasing_setting` (main.py lines 12-83).  `present` is
`config_file.exists()`; `readOk` / `writeOk` are the outcomes of
`read_text` / `write_text` (an `errors="ignore"` re-read is folded into
the supplied decoded content); a failed `write_text` is modelled as
leaving the file unchanged. -/
def applyAntiAliasingSetting (present readOk writeOk : Bool)
    (content : String) : FilePatchResult :=
  if !present then ⟨"配置文件不存在。", false, content, false⟩
  else if !readOk then ⟨"读取配置文件失败", false, content, false⟩
  else
    let r := applyAntiAliasingContent content
    if !r.changed then ⟨r.message, false, content, false⟩
    else if writeOk then ⟨r.message, true, r.content, true⟩
    else ⟨"写入配置文件失败", false, content, false⟩

/-- `remove_anti_aliasing_setting` (main.py lines 130-157), with the
same file-system conventions as `applyAntiAliasingSetting`.  The
trailing-newline fixup at lines 149-150 only applies to nonempty
content. -/
def removeAntiAliasingSetting (present readOk writeOk : Bool)
    (content : String) : FilePatchResult :=
  if !present then ⟨"配置文件不存在。", false, content, false⟩
  else if !readOk then ⟨"读取配置文件失败", false, content, false⟩
  else
    let r := stripAntiAliasingSetting content
    if !r.2 then ⟨"未检测到可删除的抗锯齿设置。", false, content, false⟩
    else
      let updated := if !(r.1 == "") && !r.1.endsWith "\n" then r.1 ++ "\n" else r.1
      if writeOk then ⟨"已移除抗锯齿设置，还原文件。", true, updated, true⟩
      else ⟨"写入配置文件失败", false, content, false⟩

/-! ## Concrete instances used to instantiate the theorems -/

/-- An existing writable file with some content. -/
def fOK : FileData := { present := true, content := [1], readOnly := false }

/-- A run in which every file-system call succeeds. -/
def envOK : IOEnv := { clearOk := true, copyOk := true, setOk := true }

/-- The app with backup and config in place, monitoring started. -/
def s0mon : AppState := appRun (initState 0 fOK fOK) [Ev.startMon]

/-- `s0mon` after one started-edge: a restore is pending. -/
def s0run : AppState := appRun (initState 0 fOK fOK) [Ev.startMon, Ev.started]

/-- A config whose content already holds the exact setting line. -/
def witnessIni : String := "[ScalabilityGroups]\nsg.AntiAliasingQuality=0\n"

theorem mem_afterCancel {p : Nat × Int} {k : Nat} {q : List (Nat × Int)}
    (h : p ∈ afterCancel k q) : p ∈ q :=
  List.mem_of_mem_filter h

/-- In a state satisfying the single-slot invariant, cancelling the
pending timer (the first half of `_on_game_started`, `_on_game_stopped`
and `_stop_monitoring`) always empties the timer queue. -/
theorem mem_cancelPending {p : Nat × Int} {s : AppState}
    (h : p ∈ cancelPending s) : p ∈ s.scheduled := by
  unfold cancelPending at h
  cases hp : s.pending with
  | none => rw [hp] at h; exact h
  | some k => rw [hp] at h; exact mem_afterCancel h

/-- In a state satisfying the single-slot invariant, cancelling the
pending timer empties the timer queue. -/
theorem slot_cancel (s : AppState)
    (hslot : (s.pending = none ∧ s.scheduled = []) ∨
             ∃ j d, s.pending = some j ∧ s.scheduled = [(j, d)]) :
    cancelPending s = [] := by
  unfold cancelPending
  rcases hslot with ⟨hp, hq⟩ | ⟨j, d, hp, hq⟩ <;> simp [hp, hq, afterCancel]

theorem appInv_init (delay : Int) (backup config : FileData) :
    AppInv (initState delay backup config) := by
  refine ⟨Or.inl ⟨rfl, rfl⟩, ?_, fun _ => rfl⟩
  intro p hp
  simp [initState] at hp

theorem appInv_step (s : AppState) (e : Ev) (h : AppInv s) :
    AppInv (appStep s e) := by
  obtain ⟨hslot, hfresh, hinact⟩ := h
  cases e with
  | startMon =>
    simp only [appStep]
    by_cases hg : (!s.monitorActive && s.config.present && s.backup.present) = true
    · rw [if_pos hg]
      exact ⟨hslot, hfresh, by intro hfalse; simp at hfalse⟩
    · rw [if_neg hg]
      exact ⟨hslot, hfresh, hinact⟩
  | started =>
    simp only [appStep]
    by_cases hact : s.monitorActive = true
    · rw [if_pos hact]
      unfold onGameStarted
      rw [slot_cancel s hslot]
      refine ⟨Or.inr ⟨s.nextId, _, rfl, rfl⟩, ?_, ?_⟩
      · intro p hp
        simp at hp
        rw [hp]
        exact Nat.lt_succ_self _
      · intro hfalse
        simp at hfalse
        exact absurd hact (by simp [hfalse])
    · rw [if_neg hact]
      exact ⟨hslot, hfresh, hinact⟩
  | stopped =>
    simp only [appStep]
    by_cases hact : s.monitorActive = true
    · rw [if_pos hact]
      unfold onGameStopped
      rw [slot_cancel s hslot]
      exact ⟨Or.inl ⟨rfl, rfl⟩, by intro p hp; simp at hp, fun _ => rfl⟩
    · rw [if_neg hact]
      exact ⟨hslot, hfresh, hinact⟩
  | stopMon =>
    simp only [appStep]
    unfold stopMonitoringStep
    by_cases hact : (!s.monitorActive) = true
    · rw [if_pos hact]
      exact ⟨hslot, hfresh, hinact⟩
    · rw [if_neg hact]
      rw [slot_cancel s hslot]
      exact ⟨Or.inl ⟨rfl, rfl⟩, by intro p hp; simp at hp, fun _ => rfl⟩
  | monError =>
    simp only [appStep]
    unfold stopMonitoringStep
    by_cases hact : (!s.monitorActive) = true
    · rw [if_pos hact]
      exact ⟨hslot, hfresh, hinact⟩
    · rw [if_neg hact]
      rw [slot_cancel s hslot]
      exact ⟨Or.inl ⟨rfl, rfl⟩, by intro p hp; simp at hp, fun _ => rfl⟩
  | fire j env =>
    simp only [appStep]
    unfold fireTimer
    by_cases hg : (s.scheduled.any (fun p => p.1 == j)) = true
    · rw [if_pos hg]
      have hq : afterCancel j s.scheduled = [] := by
        rcases hslot with ⟨hp, hqe⟩ | ⟨j', d, hp, hqe⟩
        · simp [hqe, afterCancel]
        · rcases List.any_eq_true.mp hg with ⟨p, hpm, hpe⟩
          rw [hqe] at hpm
          simp at hpm
          rw [hpm] at hpe
          simp at hpe
          simp [hqe, afterCancel, hpe]
      rw [hq]
      exact ⟨Or.inl ⟨rfl, rfl⟩, by intro p hp; simp at hp, fun _ => rfl⟩
    · rw [if_neg hg]
      exact ⟨hslot, hfresh, hinact⟩

theorem appRun_inv (s : AppState) (evs : List Ev) (h : AppInv s) :
    AppInv (appRun s evs) := by
  induction evs generalizing s with
  | nil => exact h
  | cons e evs ih => exact ih _ (appInv_step s e h)

theorem reachable_inv (s : AppState) (h : Reachable s) : AppInv s := by
  obtain ⟨d, b, c, evs, rfl⟩ := h
  exact appRun_inv _ _ (appInv_init d b c)


theorem timerDead_step (s : AppState) (e : Ev) (j : Nat)
    (h : TimerDead s j) : TimerDead (appStep s e) j := by
  obtain ⟨hlt, hmem⟩ := h
  cases e with
  | startMon =>
    simp only [appStep]
    by_cases hg : (!s.monitorActive && s.config.present && s.backup.present) = true
    · rw [if_pos hg]; exact ⟨hlt, hmem⟩
    · rw [if_neg hg]; exact ⟨hlt, hmem⟩
  | started =>
    simp only [appStep]
    by_cases hact : s.monitorActive = true
    · rw [if_pos hact]
      unfold onGameStarted
      refine ⟨Nat.lt_succ_of_lt hlt, ?_⟩
      intro d hd
      simp only [List.mem_append, List.mem_singleton] at hd
      rcases hd with hd | hd
      · exact hmem d (mem_cancelPending hd)
      · have : j = s.nextId := congrArg Prod.fst hd
        omega
    · rw [if_neg hact]; exact ⟨hlt, hmem⟩
  | stopped =>
    simp only [appStep]
    by_cases hact : s.monitorActive = true
    · rw [if_pos hact]
      unfold onGameStopped
      refine ⟨hlt, ?_⟩
      intro d hd
      exact hmem d (mem_cancelPending hd)
    · rw [if_neg hact]; exact ⟨hlt, hmem⟩
  | stopMon =>
    simp only [appStep]
    unfold stopMonitoringStep
    by_cases hact : (!s.monitorActive) = true
    · rw [if_pos hact]; exact ⟨hlt, hmem⟩
    · rw [if_neg hact]
      refine ⟨hlt, ?_⟩
      intro d hd
      exact hmem d (mem_cancelPending hd)
  | monError =>
    simp only [appStep]
    unfold stopMonitoringStep
    by_cases hact : (!s.monitorActive) = true
    · rw [if_pos hact]; exact ⟨hlt, hmem⟩
    · rw [if_neg hact]
      refine ⟨hlt, ?_⟩
      intro d hd
      exact hmem d (mem_cancelPending hd)
  | fire k env =>
    simp only [appStep]
    unfold fireTimer
    by_cases hg : (s.scheduled.any (fun p => p.1 == k)) = true
    · rw [if_pos hg]
      exact ⟨hlt, fun d hd => hmem d (mem_afterCancel hd)⟩
    · rw [if_neg hg]; exact ⟨hlt, hmem⟩

theorem timerDead_run (s : AppState) (evs : List Ev) (j : Nat)
    (h : TimerDead s j) : TimerDead (appRun s evs) j := by
  induction evs generalizing s with
  | nil => exact h
  | cons e evs ih => exact ih _ (timerDead_step s e j h)

/-- Firing a dead timer id is a no-op: the Tk queue no longer holds it,
so its callback never runs. -/
theorem timerDead_fire (s : AppState) (j : Nat) (env : IOEnv)
    (h : TimerDead s j) : appStep s (Ev.fire j env) = s := by
  have hany : (s.scheduled.any (fun p => p.1 == j)) = false := by
    rw [List.any_eq_false]
    rintro ⟨a, b⟩ hm
    simp only [beq_iff_eq]
    intro heq
    exact h.2 b (heq ▸ hm)
  simp only [appStep]
  unfold fireTimer
  rw [if_neg (by rw [hany]; exact Bool.false_ne_true)]



/-! ## Monitor lemmas and claims C1, C7 -/

theorem configMonitorRun_eq_ticks (seq : List Bool) (last : Bool) :
    configMonitorRun last (seq.map Except.ok) =
      (List.zipWith tickEvent (last :: seq) seq).reduceOption := by
  induction seq generalizing last with
  | nil => rfl
  | cons c rest ih =>
    simp only [List.map_cons, configMonitorRun, List.zipWith_cons_cons]
    rw [ih]
    unfold tickEvent
    by_cases h1 : (c && !last) = true
    · simp [h1]
    · by_cases h2 : (!c && last) = true
      · simp [h1, h2]
      · simp [h1, h2]

theorem configMonitorRun_count_started (seq : List Bool) (last : Bool) :
    (configMonitorRun last (seq.map Except.ok)).count MEvent.started =
      risingEdges last seq := by
  induction seq generalizing last with
  | nil => rfl
  | cons c rest ih =>
    simp only [List.map_cons, configMonitorRun, risingEdges, List.count_append]
    rw [ih]
    obtain ⟨hc, hl⟩ | ⟨hc, hl⟩ | ⟨hc, hl⟩ : (c = true ∧ last = false) ∨
        (c = false ∧ last = true) ∨ (c = last ∧ last = last) := by
      cases c <;> cases last <;> simp
    · subst hc; subst hl; simp
    · subst hc; subst hl; simp
    · subst hc; cases c <;> simp

theorem configMonitorRun_count_stopped (seq : List Bool) (last : Bool) :
    (configMonitorRun last (seq.map Except.ok)).count MEvent.stopped =
      fallingEdges last seq := by
  induction seq generalizing last with
  | nil => rfl
  | cons c rest ih =>
    simp only [List.map_cons, configMonitorRun, fallingEdges, List.count_append]
    rw [ih]
    obtain ⟨hc, hl⟩ | ⟨hc, hl⟩ | ⟨hc, hl⟩ : (c = true ∧ last = false) ∨
        (c = false ∧ last = true) ∨ (c = last ∧ last = last) := by
      cases c <;> cases last <;> simp
    · subst hc; subst hl; simp
    · subst hc; subst hl; simp
    · subst hc; cases c <;> simp

theorem configMonitorRun_ok_no_error (seq : List Bool) (last : Bool) :
    (configMonitorRun last (seq.map Except.ok)).countP MEvent.isError = 0 := by
  induction seq generalizing last with
  | nil => rfl
  | cons c rest ih =>
    simp only [List.map_cons, configMonitorRun, List.countP_append]
    rw [ih]
    by_cases h1 : (c && !last) = true
    · simp [h1, MEvent.isError]
    · by_cases h2 : (!c && last) = true
      · simp [h1, h2, MEvent.isError]
      · simp [h1, h2]

theorem configMonitorRun_error_split (oks : List Bool) (last : Bool)
    (e : String) (rest : List ProbeResult) :
    configMonitorRun last (oks.map Except.ok ++ Except.error e :: rest) =
      configMonitorRun last (oks.map Except.ok) ++
        [MEvent.error ("监控线程发生异常: " ++ e)] := by
  induction oks generalizing last with
  | nil => rfl
  | cons c cs ih =>
    simp only [List.map_cons, List.cons_append, configMonitorRun, List.append_eq]
    rw [ih, List.append_assoc]

/-- C1.  Edge detection is exact: started from the initial `ABSENT`
state (`last_running = False`), the monitor's poll loop emits, tick by
tick, exactly the event `tickEvent prev cur` — `on_game_started` on each
`false -> true` transition, `on_game_stopped` on each `true -> false`
transition, and nothing when the probe result repeats; consequently the
number of started (stopped) callbacks equals the number of rising
(falling) transitions of the probe sequence. -/
theorem monitor_edge_detection_exact (seq : List Bool) :
    configMonitorRun false (seq.map Except.ok) =
      (List.zipWith tickEvent (false :: seq) seq).reduceOption ∧
    (configMonitorRun false (seq.map Except.ok)).count MEvent.started =
      risingEdges false seq ∧
    (configMonitorRun false (seq.map Except.ok)).count MEvent.stopped =
      fallingEdges false seq :=
  ⟨configMonitorRun_eq_ticks seq false,
   configMonitorRun_count_started seq false,
   configMonitorRun_count_stopped seq false⟩

/-- C7.  Monitor fail-fast: when an unexpected failure (anything other
than the per-process access errors skipped inside the probe) is raised
at some tick, the loop emits exactly the events of the preceding normal
ticks followed by a single `on_error` callback, processes none of the
remaining ticks, and emits no error event on failure-free runs — the
error is surfaced exactly once and polling is not silently retried. -/
theorem monitor_fail_fast (oks : List Bool) (e : String)
    (rest : List ProbeResult) :
    configMonitorRun false (oks.map Except.ok ++ Except.error e :: rest) =
      configMonitorRun false (oks.map Except.ok) ++
        [MEvent.error ("监控线程发生异常: " ++ e)] ∧
    (configMonitorRun false (oks.map Except.ok ++ Except.error e :: rest)).countP
      MEvent.isError = 1 ∧
    (configMonitorRun false (oks.map Except.ok)).countP MEvent.isError = 0 := by
  refine ⟨configMonitorRun_error_split oks false e rest, ?_,
    configMonitorRun_ok_no_error oks false⟩
  rw [configMonitorRun_error_split oks false e rest, List.countP_append,
    configMonitorRun_ok_no_error oks false]
  rfl

/-! ## Scheduler claims C2, C8, C3, C4 -/

/-- C2.  Single-slot pending-restore invariant: in every reachable
application state at most one restore timer is live, this still holds
right after a further started-edge, and a started-edge that arrives
while a timer is pending cancels that timer before scheduling the new
one — the old id is gone from the queue and the slot holds exactly the
fresh id (replace, never stack), so two start-edges in quick succession
leave at most one pending timer. -/
theorem pending_restore_single_slot (s : AppState) (hs : Reachable s) :
    s.scheduled.length ≤ 1 ∧
    (appStep s Ev.started).scheduled.length ≤ 1 ∧
    ∀ j, s.pending = some j → s.monitorActive = true →
      (appStep s Ev.started).pending = some s.nextId ∧
      ∀ d, (j, d) ∉ (appStep s Ev.started).scheduled := by
  obtain ⟨hslot, hfresh, hinact⟩ := reachable_inv s hs
  have hq := slot_cancel s hslot
  have hlen : s.scheduled.length ≤ 1 := by
    rcases hslot with ⟨_, hqe⟩ | ⟨j, d, _, hqe⟩ <;> simp [hqe]
  refine ⟨hlen, ?_, ?_⟩
  · simp only [appStep]
    by_cases hact : s.monitorActive = true
    · rw [if_pos hact]
      simp [onGameStarted, hq]
    · rw [if_neg hact]
      exact hlen
  · intro j hp hact
    have hj : j < s.nextId := by
      rcases hslot with ⟨hpn, _⟩ | ⟨j', d', hp', hqe'⟩
      · rw [hpn] at hp; cases hp
      · rw [hp'] at hp
        injection hp with h
        subst h
        exact hfresh _ (by rw [hqe']; exact List.mem_singleton.mpr rfl)
    simp only [appStep]
    rw [if_pos hact]
    refine ⟨rfl, ?_⟩
    intro d hd
    simp [onGameStarted, hq] at hd
    omega

/-- C8.  Stop idempotence: stopping the monitor leaves no pending
restore timer, an empty timer queue, and a dead monitor; a second stop
right after is a no-op (the Python guard returns before touching
anything), and stopping when monitoring was never started leaves the
fresh state untouched.  In the model every step is total, mirroring
that `_stop_monitoring` raises no exception on any of these paths. -/
theorem stop_idempotent (s : AppState) (hs : Reachable s) :
    appStep (appStep s Ev.stopMon) Ev.stopMon = appStep s Ev.stopMon ∧
    (appStep s Ev.stopMon).pending = none ∧
    (appStep s Ev.stopMon).scheduled = [] ∧
    (appStep s Ev.stopMon).monitorActive = false ∧
    ∀ delay backup config,
      appStep (initState delay backup config) Ev.stopMon =
        initState delay backup config := by
  obtain ⟨hslot, hfresh, hinact⟩ := reachable_inv s hs
  have hq := slot_cancel s hslot
  by_cases hact : s.monitorActive = true
  · have h1 : appStep s Ev.stopMon =
        { s with monitorActive := false, gameRunning := false,
                 scheduled := cancelPending s, pending := none } := by
      simp [appStep, stopMonitoringStep, hact]
    refine ⟨?_, ?_, ?_, ?_, ?_⟩
    · rw [h1]; simp [appStep, stopMonitoringStep]
    · rw [h1]
    · rw [h1]; exact hq
    · rw [h1]
    · intro delay backup config
      simp [appStep, stopMonitoringStep, initState]
  · have hact' : s.monitorActive = false := by
      cases h : s.monitorActive
      · rfl
      · exact absurd h hact
    have h1 : appStep s Ev.stopMon = s := by
      simp [appStep, stopMonitoringStep, hact']
    have hpn : s.pending = none := hinact hact'
    have hsch : s.scheduled = [] := by
      rcases hslot with ⟨_, hqe⟩ | ⟨j, d, hp', _⟩
      · exact hqe
      · rw [hpn] at hp'; cases hp'
    refine ⟨by rw [h1, h1], by rw [h1]; exact hpn, by rw [h1]; exact hsch,
      by rw [h1]; exact hact', ?_⟩
    intro delay backup config
    simp [appStep, stopMonitoringStep, initState]

/-- C3.  A cancelled restore handle never fires: from any reachable
state with the monitor live, a started-edge schedules a restore (the
fresh timer id lands in the pending slot), and if a stopped-edge or an
explicit monitor stop is processed before the timer fires, the timer is
cancelled — the pending slot is empty, the id is out of the Tk queue, no
copy has been performed and the live config is untouched — and along
every possible continuation that timer id never fires: its fire event is
a no-op forever after. -/
theorem cancelled_restore_never_fires (s : AppState) (hs : Reachable s)
    (hact : s.monitorActive = true) (ev : Ev)
    (hev : ev = Ev.stopped ∨ ev = Ev.stopMon) :
    (appStep s Ev.started).pending = some s.nextId ∧
    (appStep (appStep s Ev.started) ev).pending = none ∧
    (∀ d, (s.nextId, d) ∉ (appStep (appStep s Ev.started) ev).scheduled) ∧
    (appStep (appStep s Ev.started) ev).writes = s.writes ∧
    (appStep (appStep s Ev.started) ev).config = s.config ∧
    ∀ evs env,
      appStep (appRun (appStep (appStep s Ev.started) ev) evs)
          (Ev.fire s.nextId env) =
        appRun (appStep (appStep s Ev.started) ev) evs := by
  obtain ⟨hslot, hfresh, hinact⟩ := reachable_inv s hs
  have hq := slot_cancel s hslot
  have h1 : appStep s Ev.started =
      { s with
        gameRunning := true
        scheduled := [(s.nextId, max 0 (getRestoreDelaySeconds s.restoreDelay) * 1000)]
        pending := some s.nextId
        nextId := s.nextId + 1 } := by
    simp [appStep, hact, onGameStarted, hq]
  have h2 : appStep (appStep s Ev.started) ev =
      { s with
        gameRunning := false
        scheduled := []
        pending := none
        nextId := s.nextId + 1
        monitorActive := (if ev = Ev.stopped then s.monitorActive else false) } := by
    rcases hev with rfl | rfl
    · rw [h1]
      simp [appStep, hact, onGameStopped, cancelPending, afterCancel]
    · rw [h1]
      simp [appStep, stopMonitoringStep, hact, cancelPending, afterCancel]
  have hdead : TimerDead (appStep (appStep s Ev.started) ev) s.nextId := by
    rw [h2]
    exact ⟨Nat.lt_succ_self _, by intro d hd; simp at hd⟩
  refine ⟨by rw [h1], by rw [h2], ?_, by rw [h2], by rw [h2], ?_⟩
  · intro d hd
    rw [h2] at hd
    simp at hd
  · intro evs env
    exact timerDead_fire _ _ env (timerDead_run _ evs _ hdead)

/-- C4.  Fire-time re-check: when a scheduled restore timer fires, the
handler consults the *current* `game_currently_running` flag (the queued
timer carries no snapshot).  If the game is not reported running at fire
time the handler reports the logged no-op `skippedNotRunning`, performs
zero file writes and leaves the live config untouched; if it is running
(with backup and config present and the file operations succeeding) the
copy is performed.  With a configured delay of 0 the started-edge still
schedules the timer, with `delay_ms = 0` — `root.after(0, ...)`, i.e.
the next scheduling quantum — and firing it performs the copy. -/
theorem restore_fire_recheck (s : AppState) (hs : Reachable s) :
    (∀ j env, s.gameRunning = false →
      fireOutcome s env = RestoreOutcome.skippedNotRunning ∧
      (appStep s (Ev.fire j env)).writes = s.writes ∧
      (appStep s (Ev.fire j env)).config = s.config) ∧
    (∀ j d env, (j, d) ∈ s.scheduled → s.gameRunning = true →
      s.config.present = true → s.backup.present = true →
      env.clearOk = true → env.copyOk = true → env.setOk = true →
      fireOutcome s env = RestoreOutcome.success ∧
      (appStep s (Ev.fire j env)).writes = s.writes + 1) ∧
    (s.monitorActive = true → getRestoreDelaySeconds s.restoreDelay = 0 →
      (s.nextId, 0) ∈ (appStep s Ev.started).scheduled ∧
      ∀ env, s.config.present = true → s.backup.present = true →
        env.clearOk = true → env.copyOk = true → env.setOk = true →
        (appStep (appStep s Ev.started) (Ev.fire s.nextId env)).writes =
          s.writes + 1) := by
  obtain ⟨hslot, hfresh, hinact⟩ := reachable_inv s hs
  have hq := slot_cancel s hslot
  refine ⟨?_, ?_, ?_⟩
  · intro j env hrun
    have hout : restoreBackupToGame env s.gameRunning s.backup s.config =
        (RestoreOutcome.skippedNotRunning, s.config) := by
      rw [hrun]; rfl
    refine ⟨by rw [fireOutcome, hout], ?_, ?_⟩
    · simp only [appStep, fireTimer]
      split
      · simp [hout]
      · rfl
    · simp only [appStep, fireTimer]
      split
      · simp [hout]
      · rfl
  · intro j d env hmem hrun hcp hbp h1 h2 h3
    have hout : restoreBackupToGame env s.gameRunning s.backup s.config =
        (RestoreOutcome.success,
         { present := true, content := s.backup.content, readOnly := true }) := by
      rw [hrun]
      simp [restoreBackupToGame, ensureWritable, copy2, ensureReadOnly,
        hcp, hbp, h1, h2, h3]
    have hany : (s.scheduled.any (fun p => p.1 == j)) = true :=
      List.any_eq_true.mpr ⟨(j, d), hmem, by simp⟩
    refine ⟨by rw [fireOutcome, hout], ?_⟩
    simp only [appStep, fireTimer]
    rw [if_pos hany, hout]
    simp
  · intro hact hdel
    have h1 : appStep s Ev.started =
        { s with
          gameRunning := true
          scheduled := [(s.nextId, 0)]
          pending := some s.nextId
          nextId := s.nextId + 1 } := by
      simp [appStep, hact, onGameStarted, hq, hdel]
    refine ⟨by rw [h1]; exact List.mem_singleton.mpr rfl, ?_⟩
    intro env hcp hbp hc1 hc2 hc3
    rw [h1]
    have hout : restoreBackupToGame env true s.backup s.config =
        (RestoreOutcome.success,
         { present := true, content := s.backup.content, readOnly := true }) := by
      simp [restoreBackupToGame, ensureWritable, copy2, ensureReadOnly,
        hcp, hbp, hc1, hc2, hc3]
    simp only [appStep, fireTimer]
    split
    · simp [hout]
    · simp at *

/-! ## Restore file-operation claims C5, C6 -/

/-- C5.  Restore postcondition: for any existing backup `B` and existing
live config `L` with arbitrary content and attributes, a restore in
which every step completes successfully (the read-only clear, the copy
of `B` over `L`, and the read-only set) reports success and leaves `L`
existing, with content equal to `B`'s content, and marked read-only. -/
theorem restore_postcondition (backup config : FileData) (env : IOEnv)
    (hb : backup.present = true) (hc : config.present = true)
    (h1 : env.clearOk = true) (h2 : env.copyOk = true)
    (h3 : env.setOk = true) :
    restoreBackupToGame env true backup config =
      (RestoreOutcome.success,
       { present := true, content := backup.content, readOnly := true }) := by
  simp [restoreBackupToGame, ensureWritable, copy2, ensureReadOnly,
    hb, hc, h1, h2, h3]

theorem restore_postcondition_witness :
    restoreBackupToGame envOK true
        { present := true, content := [7, 8], readOnly := false }
        { present := true, content := [9], readOnly := true } =
      (RestoreOutcome.success,
       { present := true, content := [7, 8], readOnly := true }) :=
  restore_postcondition _ _ envOK rfl rfl rfl rfl rfl

/-- C6, counterexample.  The claim says a partial completion in which
the copy succeeded but the set-read-only step failed is *reported to the
caller*.  Concretely: backup `⟨true, [7], false⟩`, config
`⟨true, [9], false⟩`, game running, and file-system outcomes
`clearOk = true, copyOk = true, setOk = false` (so the copy succeeded
and the final chmod raised).  `_ensure_read_only` swallows the exception
(`except Exception: pass`, app.py line 714), so `_restore_backup_to_game`
takes its success path — outcome `success`, not the reporting path
`failed` — and the config is left writable with the copied content in
place.  The partial completion is silently swallowed, refuting the
claim at this input. -/
theorem restore_partial_report_counterexample :
    (restoreBackupToGame { clearOk := true, copyOk := true, setOk := false }
        true { present := true, content := [7], readOnly := false }
        { present := true, content := [9], readOnly := false }).1 =
      RestoreOutcome.success ∧
    RestoreOutcome.success ≠ RestoreOutcome.failed ∧
    (restoreBackupToGame { clearOk := true, copyOk := true, setOk := false }
        true { present := true, content := [7], readOnly := false }
        { present := true, content := [9], readOnly := false }).2 =
      { present := true, content := [7], readOnly := false } := by
  decide

/-- C6, amended.  Restore failure reporting as the code actually
behaves: a failing copy step is reported to the caller (the `failed`
outcome: log plus blocking error dialog), but a failure of the final
set-read-only step is silently swallowed — the restore reports
`success`; in that partial completion the copied content is not rolled
back: the live config keeps the backup's content (and the permission
bits the copy gave it). -/
theorem restore_failure_reporting_amended (backup config : FileData)
    (env : IOEnv) (hb : backup.present = true) (hc : config.present = true) :
    (env.copyOk = false →
      (restoreBackupToGame env true backup config).1 = RestoreOutcome.failed) ∧
    (env.clearOk = true → env.copyOk = true → env.setOk = false →
      restoreBackupToGame env true backup config =
        (RestoreOutcome.success,
         { present := true, content := backup.content,
           readOnly := backup.readOnly })) := by
  constructor
  · intro h2
    simp [restoreBackupToGame, ensureWritable, copy2, hb, hc, h2]
  · intro h1 h2 h3
    simp [restoreBackupToGame, ensureWritable, copy2, ensureReadOnly,
      hb, hc, h1, h2, h3]

theorem restore_failure_reporting_amended_witness :
    ((({ clearOk := true, copyOk := true, setOk := false } : IOEnv).copyOk = false →
      (restoreBackupToGame { clearOk := true, copyOk := true, setOk := false }
          true { present := true, content := [7], readOnly := false }
          { present := true, content := [9], readOnly := true }).1 =
        RestoreOutcome.failed) ∧
    (({ clearOk := true, copyOk := true, setOk := false } : IOEnv).clearOk = true →
      ({ clearOk := true, copyOk := true, setOk := false } : IOEnv).copyOk = true →
      ({ clearOk := true, copyOk := true, setOk := false } : IOEnv).setOk = false →
      restoreBackupToGame { clearOk := true, copyOk := true, setOk := false }
          true { present := true, content := [7], readOnly := false }
          { present := true, content := [9], readOnly := true } =
        (RestoreOutcome.success,
         { present := true, content := [7], readOnly := false }))) :=
  restore_failure_reporting_amended
    { present := true, content := [7], readOnly := false }
    { present := true, content := [9], readOnly := true }
    { clearOk := true, copyOk := true, setOk := false } rfl rfl

theorem pending_restore_single_slot_witness :
    s0run.scheduled.length ≤ 1 ∧ (appStep s0run Ev.started).scheduled.length ≤ 1 :=
  ⟨(pending_restore_single_slot s0run
      ⟨0, fOK, fOK, [Ev.startMon, Ev.started], rfl⟩).1,
   (pending_restore_single_slot s0run
      ⟨0, fOK, fOK, [Ev.startMon, Ev.started], rfl⟩).2.1⟩

theorem cancelled_restore_never_fires_witness :
    (appStep s0mon Ev.started).pending = some s0mon.nextId ∧
    (appStep (appStep s0mon Ev.started) Ev.stopped).pending = none :=
  ⟨(cancelled_restore_never_fires s0mon ⟨0, fOK, fOK, [Ev.startMon], rfl⟩
      rfl Ev.stopped (Or.inl rfl)).1,
   (cancelled_restore_never_fires s0mon ⟨0, fOK, fOK, [Ev.startMon], rfl⟩
      rfl Ev.stopped (Or.inl rfl)).2.1⟩

theorem restore_fire_recheck_witness :
    fireOutcome s0run envOK = RestoreOutcome.success ∧
    (appStep s0run (Ev.fire 0 envOK)).writes = s0run.writes + 1 :=
  (restore_fire_recheck s0run ⟨0, fOK, fOK, [Ev.startMon, Ev.started], rfl⟩).2.1
    0 0 envOK (by decide) rfl rfl rfl rfl rfl rfl

theorem stop_idempotent_witness :
    (appStep s0run Ev.stopMon).pending = none ∧
    (appStep s0run Ev.stopMon).scheduled = [] :=
  ⟨(stop_idempotent s0run ⟨0, fOK, fOK, [Ev.startMon, Ev.started], rfl⟩).2.1,
   (stop_idempotent s0run ⟨0, fOK, fOK, [Ev.startMon, Ev.started], rfl⟩).2.2.1⟩

/-! ## INI lemmas and claims C9, C10 -/

theorem strToList_append (s t : String) :
    (s ++ t).toList = s.toList ++ t.toList :=
  String.data_append s t

theorem mem_pyJoin_sub (x : String) : ∀ (L : List String), x ∈ L →
    x.toList <:+: (pyJoin "\n" L).toList := by
  intro L
  induction L with
  | nil => intro h; cases h
  | cons a rest ih =>
    intro h
    cases rest with
    | nil =>
      rcases List.mem_singleton.mp h with rfl
      exact List.infix_refl _
    | cons b rest2 =>
      rcases List.mem_cons.mp h with rfl | h2
      · show x.toList <:+: ((x ++ "\n") ++ pyJoin "\n" (b :: rest2)).toList
        rw [strToList_append, strToList_append, List.append_assoc]
        exact (List.prefix_append _ _).isInfix
      · have hx := ih h2
        show x.toList <:+: ((a ++ "\n") ++ pyJoin "\n" (b :: rest2)).toList
        rw [strToList_append]
        exact hx.trans (List.suffix_append _ _).isInfix

theorem applyFinish_hasTarget (L : List String) (msg : String)
    (h : aaTarget ∈ L) :
    pyInStr aaTarget (applyFinish L msg).content = true := by
  have hinf : aaTarget.toList <:+: (pyJoin "\n" L).toList :=
    mem_pyJoin_sub _ L h
  have hcs : (applyFinish L msg).content = pyJoin "\n" L ∨
      (applyFinish L msg).content = pyJoin "\n" L ++ "\n" := by
    unfold applyFinish
    dsimp only
    by_cases he : (!(pyJoin "\n" L).endsWith "\n") = true
    · right; rw [if_pos he]
    · left; rw [if_neg he]
  unfold pyInStr
  rcases hcs with hc | hc
  · rw [hc]; exact decide_eq_true hinf
  · rw [hc, strToList_append]
    exact decide_eq_true (hinf.trans (List.prefix_append _ _).isInfix)

theorem scanLines_replaced_bound :
    ∀ (l : List String) (k : Nat) (a b : Bool) (ii : Option Nat) (idx : Nat),
      scanLines k a b ii l = ScanOut.replaced idx →
      k ≤ idx ∧ idx < k + l.length := by
  intro l
  induction l with
  | nil =>
    intro k a b ii idx h
    simp [scanLines] at h
  | cons line rest ih =>
    intro k a b ii idx h
    simp only [scanLines] at h
    split at h
    · obtain ⟨h1, h2⟩ := ih _ _ _ _ _ h
      simp only [List.length_cons]
      omega
    · split at h
      · split at h
        · cases h
        · cases h
          simp only [List.length_cons]
          omega
      · obtain ⟨h1, h2⟩ := ih _ _ _ _ _ h
        simp only [List.length_cons]
        omega

theorem scanLines_finished_bound :
    ∀ (l : List String) (k : Nat) (a b : Bool) (ii : Option Nat)
      (sf : Bool) (i : Nat),
      (∀ v, ii = some v → v < k) →
      scanLines k a b ii l = ScanOut.finished sf (some i) →
      i < k + l.length := by
  intro l
  induction l with
  | nil =>
    intro k a b ii sf i hii h
    simp only [scanLines, ScanOut.finished.injEq] at h
    have := hii i h.2
    omega
  | cons line rest ih =>
    intro k a b ii sf i hii h
    simp only [scanLines] at h
    split at h
    · have hii2 : ∀ v, (if a && ii.isNone then some k else ii) = some v →
          v < k + 1 := by
        intro v hv
        split at hv
        · cases hv; omega
        · exact Nat.lt_succ_of_lt (hii v hv)
      have := ih _ _ _ _ _ _ hii2 h
      simp only [List.length_cons]
      omega
    · split at h
      · split at h <;> cases h
      · have hii2 : ∀ v, ii = some v → v < k + 1 :=
          fun v hv => Nat.lt_succ_of_lt (hii v hv)
        have := ih _ _ _ _ _ _ hii2 h
        simp only [List.length_cons]
        omega

theorem applyContent_already (c : String) (h : pyInStr aaTarget c = true) :
    applyAntiAliasingContent c =
      ⟨"抗锯齿设置已存在，无需修改。", false, c⟩ := by
  unfold applyAntiAliasingContent
  rw [if_pos h]

theorem applyContent_changed_hasTarget (c : String)
    (hch : (applyAntiAliasingContent c).changed = true) :
    pyInStr aaTarget (applyAntiAliasingContent c).content = true := by
  unfold applyAntiAliasingContent at hch ⊢
  dsimp only at hch ⊢
  by_cases h : pyInStr aaTarget c = true
  · rw [if_pos h] at hch
    simp at hch
  · rw [if_neg h] at hch ⊢
    cases hscan : scanLines 0 false false none (pySplitLines c) with
    | already =>
      rw [hscan] at hch
      simp at hch
    | replaced idx =>
      apply applyFinish_hasTarget
      obtain ⟨h1, h2⟩ :=
        scanLines_replaced_bound (pySplitLines c) 0 false false none idx hscan
      have hlt : idx < (pySplitLines c).length := by omega
      have hlt2 : idx < ((pySplitLines c).set idx aaTarget).length := by
        rw [List.length_set]
        exact hlt
      have hg := List.getElem_mem hlt2
      rw [List.getElem_set_self hlt2] at hg
      exact hg
    | finished sf ii =>
      cases sf
      · apply applyFinish_hasTarget
        exact List.mem_append_right _ (by simp)
      · cases ii with
        | none =>
          apply applyFinish_hasTarget
          exact List.mem_append_right _ (by simp)
        | some i =>
          apply applyFinish_hasTarget
          have hb := scanLines_finished_bound (pySplitLines c) 0 false false
            none true i (by intro v hv; cases hv) hscan
          have hle : i ≤ (pySplitLines c).length := by omega
          exact (List.mem_insertIdx hle).mpr (Or.inl rfl)

theorem applyContent_unchanged (c : String)
    (hch : (applyAntiAliasingContent c).changed = false) :
    (applyAntiAliasingContent c).content = c := by
  unfold applyAntiAliasingContent at hch ⊢
  dsimp only at hch ⊢
  by_cases h : pyInStr aaTarget c = true
  · rw [if_pos h]
  · rw [if_neg h] at hch ⊢
    cases hscan : scanLines 0 false false none (pySplitLines c) with
    | already => rfl
    | replaced idx =>
      rw [hscan] at hch
      simp [applyFinish] at hch
    | finished sf ii =>
      rw [hscan] at hch
      cases sf
      · simp [applyFinish] at hch
      · cases ii <;> simp [applyFinish] at hch

/-- C9.  Idempotence of the INI patch: when the file's content already
contains the exact substring `sg.AntiAliasingQuality=0`, the function
returns its "already present" message with `False` and performs no
write, leaving the file untouched; and for every content, applying the
setting a second time to the first application's output changes nothing
— the second call reports no change and returns the same content. -/
theorem apply_setting_idempotent (content : String) :
    (pyInStr aaTarget content = true →
      ∀ writeOk, applyAntiAliasingSetting true true writeOk content =
        ⟨"抗锯齿设置已存在，无需修改。", false, content, false⟩) ∧
    (applyAntiAliasingContent (applyAntiAliasingContent content).content).changed
      = false ∧
    (applyAntiAliasingContent (applyAntiAliasingContent content).content).content
      = (applyAntiAliasingContent content).content := by
  have hsplit : (applyAntiAliasingContent content).changed = true ∨
      (applyAntiAliasingContent content).changed = false := by
    cases (applyAntiAliasingContent content).changed
    · exact Or.inr rfl
    · exact Or.inl rfl
  refine ⟨?_, ?_, ?_⟩
  · intro h writeOk
    unfold applyAntiAliasingSetting
    rw [applyContent_already content h]
    rfl
  · rcases hsplit with h | h
    · rw [applyContent_already _ (applyContent_changed_hasTarget content h)]
    · rw [applyContent_unchanged content h]
      exact h
  · rcases hsplit with h | h
    · rw [applyContent_already _ (applyContent_changed_hasTarget content h)]
    · rw [applyContent_unchanged content h]
      exact applyContent_unchanged content h

theorem apply_setting_idempotent_witness :
    pyInStr aaTarget witnessIni = true ∧
    applyAntiAliasingSetting true true true witnessIni =
      ⟨"抗锯齿设置已存在，无需修改。", false, witnessIni, false⟩ :=
  ⟨rfl, (apply_setting_idempotent witnessIni).1 rfl true⟩

/-- C10.  No-op atomicity of the INI operations: whenever
`apply_anti_aliasing_setting` or `remove_anti_aliasing_setting` returns
`False` — file missing, read error, setting already present / nothing
removable, or write error — the file content is unchanged and nothing
was written; conversely a write reaches the disk only together with a
`True` result. -/
theorem ini_noop_on_false (present readOk writeOk : Bool) (content : String) :
    ((applyAntiAliasingSetting present readOk writeOk content).changed = false →
      (applyAntiAliasingSetting present readOk writeOk content).content =
        content ∧
      (applyAntiAliasingSetting present readOk writeOk content).wrote = false) ∧
    ((applyAntiAliasingSetting present readOk writeOk content).wrote = true →
      (applyAntiAliasingSetting present readOk writeOk content).changed = true) ∧
    ((removeAntiAliasingSetting present readOk writeOk content).changed = false →
      (removeAntiAliasingSetting present readOk writeOk content).content =
        content ∧
      (removeAntiAliasingSetting present readOk writeOk content).wrote = false) ∧
    ((removeAntiAliasingSetting present readOk writeOk content).wrote = true →
      (removeAntiAliasingSetting present readOk writeOk content).changed =
        true) := by
  cases hA : (applyAntiAliasingContent content).changed <;>
    cases hR : (stripAntiAliasingSetting content).2 <;>
      cases present <;> cases readOk <;> cases writeOk <;>
        simp [applyAntiAliasingSetting, removeAntiAliasingSetting, hA, hR]

theorem ini_noop_on_false_witness :
    (applyAntiAliasingSetting true true true witnessIni).content = witnessIni ∧
    (applyAntiAliasingSetting true true true witnessIni).wrote = false :=
  (ini_noop_on_false true true true witnessIni).1 rfl
